import Mathlib

/-!
Shallow embedding of the FRR ELF xref extractor (`python/xrelfo.py`).

Python dicts that preserve insertion order are modelled as association
lists (`List (κ × β)`); `dict.setdefault` / in-place value update is
modelled by `dictSet`, lookup by `dictLookup`.  The aggregate store
(class `Xrelfo`, a `dict` with a mandatory `'refs'` key, an optional
`'cli'` key and, in principle, further keys) is modelled as a structure
with a `refs` field, an optional `cli` field and an `extra` field for
any other top-level keys.  Occurrence descriptors, cli descriptors and
extra values are kept generic (`α`, `β`, `γ`) where the code treats
them opaquely.
-/

namespace Frr

/-- Python `d[k]` lookup on an insertion-ordered dict. -/
def dictLookup {κ β : Type} [DecidableEq κ] : List (κ × β) → κ → Option β
  | [], _ => none
  | (k', v) :: rest, k => if k' = k then some v else dictLookup rest k

/-- Python `d[k] = v` / `d.setdefault(k, v)`-then-overwrite: update the
value in place if the key is present, otherwise append the new entry at
the end (insertion order). -/
def dictSet {κ β : Type} [DecidableEq κ] : List (κ × β) → κ → β → List (κ × β)
  | [], k, v => [(k, v)]
  | (k', v') :: rest, k, v =>
    if k' = k then (k, v) :: rest else (k', v') :: dictSet rest k v

/-- `d[k]` for a dict of lists, defaulting to `[]` (`d.setdefault(k, [])`). -/
def lookupList {κ β : Type} [DecidableEq κ] (m : List (κ × List β)) (k : κ) : List β :=
  (dictLookup m k).getD []

/-- Keys of a dict, in insertion order. -/
def dictKeys {κ β : Type} (m : List (κ × β)) : List κ :=
  m.map Prod.fst

/-- The aggregate store (`class Xrelfo(dict)`): the `'refs'` key is
created by `__init__` and always present; the `'cli'` key only exists
once a CLI contribution created it (`xrelfo.setdefault('cli', {})`);
`extra` holds any other top-level keys.  The same shape also models a
parsed snapshot document (`data = json.load(fd)`). -/
structure Store (κ α β γ : Type) where
  refs : List (κ × List α)
  cli : Option β
  extra : List (String × γ)
  deriving DecidableEq

/-- `Xrelfo.__init__`: `{'refs': {}}`. -/
def emptyStore {κ α β γ : Type} : Store κ α β γ :=
  { refs := [], cli := none, extra := [] }

/-- Body of the inner loop of `Xrelfo.load_json`:
`if item in myitems: continue; myitems.append(item)`. -/
def mergeStep {α : Type} [DecidableEq α] (acc : List α) (item : α) : List α :=
  if item ∈ acc then acc else acc ++ [item]

/-- The inner loop of `Xrelfo.load_json` over one identity's occurrence
list: each source item is appended unless an identical-content item is
already present (Python `in` / `==`, i.e. content equality). -/
def mergeItems {α : Type} [DecidableEq α] (mine : List α) (items : List α) : List α :=
  items.foldl mergeStep mine

/-- The outer loop of `Xrelfo.load_json` over `data['refs'].items()`:
`myitems = self['refs'].setdefault(uid, [])` followed by the dedup
appends. -/
def mergeRefs {κ α : Type} [DecidableEq κ] [DecidableEq α]
    (target : List (κ × List α)) (source : List (κ × List α)) : List (κ × List α) :=
  source.foldl (fun t p => dictSet t p.1 (mergeItems (lookupList t p.1) p.2)) target

/-- `Xrelfo.load_json`: merges only `data['refs']` into the store; the
snapshot's `cli` (and any other key) is never read, and the store's
`cli`/other keys are never written. -/
def loadJson {κ α β γ : Type} [DecidableEq κ] [DecidableEq α]
    (s : Store κ α β γ) (data : Store κ α β γ) : Store κ α β γ :=
  { s with refs := mergeRefs s.refs data.refs }

/-! ### Generic xref record, detail record, identity (`Xrefdata.uid`) -/

/-- The `xrefdata` struct (Detail record).  The `uid` field in the
binary is always zero and is renamed away by the code
(`fieldrename = {'uid': '_uid'}`); the live identity is derived. -/
structure Xrefdata where
  hashstr : Option String
  hashu32_0 : Nat
  hashu32_1 : Nat
  deriving DecidableEq

/-- The generic `xref` record: origin file/line/function plus the
record's in-binary address (which the identity must not depend on).
The `xrefdata` link is modelled at use sites. -/
structure Xref where
  file : String
  line : Nat
  func : String
  addr : Nat
  deriving DecidableEq

/-- `Xrefdata.uid` (property): `None` when there is no hash-input text,
otherwise `uidhash(self.xref.file, self.hashstr, self.hashu32_0,
self.hashu32_1)`.  The externally supplied hash function
(`clippy.uidhash.uidhash`) is passed as a parameter; the claims only
depend on which arguments it receives. -/
def xrefdataUid (uidhash : String → String → Nat → Nat → String)
    (xref : Xref) (d : Xrefdata) : Option String :=
  match d.hashstr with
  | none => none
  | some h => some (uidhash xref.file h d.hashu32_0 d.hashu32_1)

/-! ### Log-message records (`XrefLogmsg.to_dict`) -/

/-- The `xref_logmsg` record with its owning `xref` and the `xrefdata`
the xref points to (`self.xref.xrefdata`, dereferenced by `to_dict`). -/
structure XrefLogmsg where
  xref : Xref
  xrefdata : Xrefdata
  ec : Nat
  fmtstring : String
  priority : Nat
  deriving DecidableEq

/-- The occurrence descriptor `jsobj` built by `XrefLogmsg.to_dict`.
Optional fields model dict keys that are only conditionally inserted
(`ec` when nonzero, `flags` when some flag bit is set). -/
structure LogmsgDict where
  file : String
  line : Nat
  func : String
  ec : Option Nat
  fmtstring : String
  priority : Nat
  type : String
  flags : Option (List String)
  deriving DecidableEq

/-- The descriptor-building part of `XrefLogmsg.to_dict` (everything
before the final append):
`jsobj['priority'] = self.priority & 7`, `ec` only when nonzero,
`flags` grown by `setdefault('flags', []).append(...)` for the `0x10`
(errno) and `0x20` (getaddrinfo) bits in that order. -/
def logmsgJsobj (m : XrefLogmsg) : LogmsgDict :=
  let flags0 : Option (List String) := none
  let flags1 := if m.priority &&& 0x10 ≠ 0 then some (flags0.getD [] ++ ["errno"]) else flags0
  let flags2 := if m.priority &&& 0x20 ≠ 0 then some (flags1.getD [] ++ ["getaddrinfo"]) else flags1
  { file := m.xref.file
    line := m.xref.line
    func := m.xref.func
    ec := if m.ec ≠ 0 then some m.ec else none
    fmtstring := m.fmtstring
    priority := m.priority &&& 7
    type := "logmsg"
    flags := flags2 }

/-- `xrelfo['refs'].setdefault(uid, []).append(jsobj)`: unconditional
append of one occurrence under one identity. -/
def refsAppend {κ α : Type} [DecidableEq κ]
    (refs : List (κ × List α)) (k : κ) (v : α) : List (κ × List α) :=
  dictSet refs k (lookupList refs k ++ [v])

/-- `XrefLogmsg.to_dict(self, xrelfo)`: build `jsobj` and append it
under `self.xref.xrefdata.uid` — with no membership test. -/
def logmsgToDict {β γ : Type} (uidhash : String → String → Nat → Nat → String)
    (m : XrefLogmsg) (s : Store (Option String) LogmsgDict β γ) :
    Store (Option String) LogmsgDict β γ :=
  { s with refs := refsAppend s.refs (xrefdataUid uidhash m.xref m.xrefdata) (logmsgJsobj m) }

/-! ### CLI command records (`CmdElement.to_dict`, `XrefInstallElement.to_dict`) -/

/-- Value of the `attr` key: either one of the strings from
`cmd_attrs = {0: None, 1: 'deprecated', 2: 'hidden'}` or, for an
unknown enum value, the raw integer (`dict.get` default). -/
inductive AttrVal where
  | str (s : String)
  | num (n : Nat)
  deriving DecidableEq

/-- `self.cmd_attrs.get(self.attr, self.attr)`, with `None` (key `0`)
represented as `none` — the code deletes the `attr` key when the mapped
value is `None`. -/
def cmdAttrs (n : Nat) : Option AttrVal :=
  match n with
  | 0 => none
  | 1 => some (.str "deprecated")
  | 2 => some (.str "hidden")
  | n => some (.num n)

/-- Origin triple `{file, line, func}` extracted from an xref. -/
structure Loc where
  file : String
  line : Nat
  func : String
  deriving DecidableEq

def xrefLoc (x : Xref) : Loc :=
  { file := x.file, line := x.line, func := x.func }

/-- One entry of a cli descriptor's `nodes` list:
`{'node': node_type, 'install': {file,line,func}}`. -/
structure NodeEntry where
  node : Nat
  install : Loc
  deriving DecidableEq

/-- A cli command descriptor (`cli[name]`): a dict whose keys are all
conditionally present, starting from `{}`. -/
structure CmdDesc where
  string : Option String
  doc : Option String
  attr : Option AttrVal
  nodes : Option (List NodeEntry)
  defun : Option Loc
  deriving DecidableEq

/-- The fresh descriptor `{}` created by `cli.setdefault(name, {})`. -/
def emptyCmdDesc : CmdDesc :=
  { string := none, doc := none, attr := none, nodes := none, defun := none }

/-- The cli mapping (`xrelfo['cli']`): command name → descriptor. -/
abbrev CliMap : Type := List (String × CmdDesc)

/-- The `cmd_element` record (command definition).  `dict_nodes` is the
fresh empty list created by `CmdElement.__init__`; it is empty at
contribution time for an element that contributes once, which is the
situation all claims are about. -/
structure CmdElement where
  name : String
  string : String
  doc : String
  attr : Nat
  xref : Xref
  deriving DecidableEq

/-- The `xref_install_element` record (command installation); `cmdName`
is `self.cmd_element.name`, resolved through the linked definition. -/
structure XrefInstallElement where
  cmdName : String
  node_type : Nat
  xref : Xref
  deriving DecidableEq

/-- `CmdElement.to_dict(self, xrelfo)`:
`cli = xrelfo.setdefault('cli', {})`; `jsobj = cli.setdefault(self.name, {})`;
`jsobj.update({'string': …, 'doc': …, 'attr': …, 'nodes': self.dict_nodes})`
— note `nodes` is overwritten with the element's own (empty) list —
then delete `attr` when `None` and set `jsobj['defun']`. -/
def cmdElementToDict {κ α γ : Type} [DecidableEq κ]
    (c : CmdElement) (s : Store κ α CliMap γ) : Store κ α CliMap γ :=
  let cli := s.cli.getD []
  let jsobj := (dictLookup cli c.name).getD emptyCmdDesc
  let jsobj := { jsobj with
    string := some c.string
    doc := some c.doc
    attr := cmdAttrs c.attr
    nodes := some []
    defun := some (xrefLoc c.xref) }
  { s with cli := some (dictSet cli c.name jsobj) }

/-- `XrefInstallElement.to_dict(self, xrelfo)`:
`cli = xrelfo.setdefault('cli', {})`;
`jsobj = cli.setdefault(self.cmd_element.name, {})`;
`nodes = jsobj.setdefault('nodes', [])`; append the install entry. -/
def installElementToDict {κ α γ : Type} [DecidableEq κ]
    (i : XrefInstallElement) (s : Store κ α CliMap γ) : Store κ α CliMap γ :=
  let cli := s.cli.getD []
  let jsobj := (dictLookup cli i.cmdName).getD emptyCmdDesc
  let jsobj := { jsobj with
    nodes := some (jsobj.nodes.getD [] ++ [{ node := i.node_type, install := xrefLoc i.xref }]) }
  { s with cli := some (dictSet cli i.cmdName jsobj) }

/-! ### By-file view (`main`, the `outbyfile` loop) -/

/-- An occurrence descriptor as seen by the by-file view: the code only
reads `loc['file']` and `loc['line']` and treats the rest opaquely. -/
structure Occ (ρ : Type) where
  file : String
  line : Nat
  rest : ρ
  deriving DecidableEq

/-- An occurrence with the `file` key deleted (`del loc['file']`). -/
structure OccNF (ρ : Type) where
  line : Nat
  rest : ρ
  deriving DecidableEq

def dropFile {ρ : Type} (o : Occ ρ) : OccNF ρ :=
  { line := o.line, rest := o.rest }

/-- One iteration of the inner `for loc in locs` loop:
`outbyfile.setdefault(loc['file'], []).append(copy-without-file)`. -/
def byFileStep {ρ : Type} (out : List (String × List (OccNF ρ))) (loc : Occ ρ) :
    List (String × List (OccNF ρ)) :=
  refsAppend out loc.file (dropFile loc)

/-- The unsorted by-file index built by the double loop over
`refs.items()` and each `locs`. -/
def byFileRaw {κ ρ : Type} (refs : List (κ × List (Occ ρ))) :
    List (String × List (OccNF ρ)) :=
  refs.foldl (fun out p => p.2.foldl byFileStep out) []

/-- Stable insertion by line: places `x` before the first element whose
line is not smaller, so equal-line elements keep their original
relative order. -/
def insLine {ρ : Type} (x : OccNF ρ) : List (OccNF ρ) → List (OccNF ρ)
  | [] => [x]
  | y :: ys => if x.line ≤ y.line then x :: y :: ys else y :: insLine x ys

/-- Python `sorted(…, key=lambda x: x['line'])` is a stable sort by
line; modelled as stable insertion sort (same output: sorted by line
with equal-line runs in input order). -/
def sortByLine {ρ : Type} : List (OccNF ρ) → List (OccNF ρ)
  | [] => []
  | x :: xs => insLine x (sortByLine xs)

/-- The full by-file view: build the raw index, then
`outbyfile[k] = sorted(outbyfile[k], key=line)` for every key. -/
def byFile {κ ρ : Type} (refs : List (κ × List (Occ ρ))) :
    List (String × List (OccNF ρ)) :=
  (byFileRaw refs).map (fun p => (p.1, sortByLine p.2))

/-! ### ELF pointer-table discovery (`Xrelfo.load_elf`) -/

/-- A named section's raw contents (`edf.get_section('xref_array')`),
consumed directly as the packed pointer array. -/
structure SectionData where
  bytes : List Nat
  deriving DecidableEq

/-- The `('FRRouting', 'XREF')` note as returned by `find_note`: its
starting offset in the file and its payload bytes
(`mem = edf._elffile[note]`). -/
structure NoteData where
  start : Nat
  mem : List Nat
  deriving DecidableEq

/-- The ELF-class metadata and the two discovery anchors exposed by the
binary image accessor. -/
structure ELFFile where
  bigendian : Bool
  elfclass : Nat
  note : Option NoteData
  xref_array : Option SectionData
  deriving DecidableEq

/-- Little-endian byte list to natural number. -/
def leNat : List Nat → Nat
  | [] => 0
  | b :: bs => b + 256 * leNat bs

/-- `struct.unpack` of one unsigned integer of the given byte list:
`<` (little endian) or `>` (big endian). -/
def decodeWord (big : Bool) (bs : List Nat) : Nat :=
  leNat (if big then bs.reverse else bs)

/-- Where the record pointer table comes from: either a byte range
`slice(start, stop)` of the file (note path) or the raw section
contents (fallback path). -/
inductive PtrTable where
  | range (start stop : Nat)
  | fromSection (s : SectionData)
  deriving DecidableEq

/-- The discovery part of `Xrelfo.load_elf`: probe the note first;
unpack `start, end` as two pointer-sized words in the file's endianness
(`QQ` for 64-bit, `II` otherwise — `struct.unpack` fails unless the
payload is exactly two words), offset both by `note.start` and `end`
additionally by one word width; fall back to the `xref_array` section;
fail when neither exists. -/
def loadElfPtrs (edf : ELFFile) : Except String PtrTable :=
  match edf.note with
  | some note =>
    if edf.elfclass = 64 then
      if note.mem.length = 16 then
        let s := decodeWord edf.bigendian (note.mem.take 8)
        let e := decodeWord edf.bigendian ((note.mem.drop 8).take 8)
        .ok (.range (s + note.start) (e + note.start + 8))
      else .error "struct.error"
    else
      if note.mem.length = 8 then
        let s := decodeWord edf.bigendian (note.mem.take 4)
        let e := decodeWord edf.bigendian ((note.mem.drop 4).take 4)
        .ok (.range (s + note.start) (e + note.start + 4))
      else .error "struct.error"
  | none =>
    match edf.xref_array with
    | some sec => .ok (.fromSection sec)
    | none => .error "file has neither xref note nor xref_array section"

/-! ### Serialization round trip (`main` + `Xrelfo.load_file`/`load_json`) -/

/-- Stable insertion by string key, for `json.dump(…, sort_keys=True)`. -/
def insKey {β : Type} (p : String × β) : List (String × β) → List (String × β)
  | [] => [p]
  | q :: qs => if p.1 ≤ q.1 then p :: q :: qs else q :: insKey p qs

/-- Key-sorting applied by `json.dump(…, sort_keys=True)` to a dict
(here: to the top-level `refs` mapping of the primary output). -/
def sortKeys {β : Type} : List (String × β) → List (String × β)
  | [] => []
  | p :: ps => insKey p (sortKeys ps)

/-- The primary JSON output document for a store
(`json.dump(out, fd, indent=2, sort_keys=True)`): same content, with
dict keys emitted in sorted order.  `json.dump`/`json.load` are
content-faithful, so reparsing yields exactly this structure. -/
def serializeDoc {α β γ : Type} (s : Store String α β γ) : Store String α β γ :=
  { s with refs := sortKeys s.refs }

/-- Serialize the store and reload the document through
`Xrelfo.load_json` into a fresh `Xrelfo()`. -/
def roundTrip {α β γ : Type} [DecidableEq α] (s : Store String α β γ) :
    Store String α β γ :=
  loadJson emptyStore (serializeDoc s)

/-! ## Lemmas about the dict primitives -/

variable {κ α β γ : Type}

theorem dictLookup_dictSet_self [DecidableEq κ] (m : List (κ × β)) (k : κ) (v : β) :
    dictLookup (dictSet m k v) k = some v := by
  induction m with
  | nil => simp [dictSet, dictLookup]
  | cons p rest ih =>
    obtain ⟨k', v'⟩ := p
    by_cases h : k' = k
    · subst h; simp [dictSet, dictLookup]
    · simp [dictSet, dictLookup, h, ih]

theorem dictLookup_dictSet_ne [DecidableEq κ] (m : List (κ × β)) {u k : κ} (v : β)
    (h : u ≠ k) : dictLookup (dictSet m k v) u = dictLookup m u := by
  induction m with
  | nil => simp [dictSet, dictLookup, Ne.symm h]
  | cons p rest ih =>
    obtain ⟨k', v'⟩ := p
    by_cases hk : k' = k
    · subst hk; simp [dictSet, dictLookup, Ne.symm h]
    · simp [dictSet, dictLookup, hk, ih]

theorem dictSet_lookup_self [DecidableEq κ] {m : List (κ × β)} {k : κ} {v : β}
    (h : dictLookup m k = some v) : dictSet m k v = m := by
  induction m with
  | nil => simp [dictLookup] at h
  | cons p rest ih =>
    obtain ⟨k', v'⟩ := p
    by_cases hk : k' = k
    · subst hk
      simp [dictLookup] at h
      simp [dictSet, h]
    · simp [dictLookup, hk] at h
      simp [dictSet, hk, ih h]

theorem mem_dictKeys_dictSet [DecidableEq κ] (m : List (κ × β)) (u k : κ) (v : β) :
    u ∈ dictKeys (dictSet m k v) ↔ u ∈ dictKeys m ∨ u = k := by
  induction m with
  | nil => simp [dictSet, dictKeys]
  | cons p rest ih =>
    obtain ⟨k', v'⟩ := p
    by_cases h : k' = k
    · subst h; simp [dictSet, dictKeys]; tauto
    · simp [dictSet, dictKeys, h] at ih ⊢
      tauto

theorem dictLookup_isSome_of_mem [DecidableEq κ] {m : List (κ × β)} {k : κ}
    (h : k ∈ dictKeys m) : ∃ v, dictLookup m k = some v := by
  induction m with
  | nil => simp [dictKeys] at h
  | cons p rest ih =>
    obtain ⟨k', v'⟩ := p
    by_cases hk : k' = k
    · subst hk; exact ⟨v', by simp [dictLookup]⟩
    · rcases List.mem_cons.mp (show k ∈ k' :: dictKeys rest from h) with h | h
      · exact absurd h.symm hk
      · obtain ⟨v, hv⟩ := ih h
        exact ⟨v, by simp [dictLookup, hk, hv]⟩

theorem lookupList_dictSet_self [DecidableEq κ] (m : List (κ × List β)) (k : κ) (v : List β) :
    lookupList (dictSet m k v) k = v := by
  simp [lookupList, dictLookup_dictSet_self]

theorem lookupList_dictSet_ne [DecidableEq κ] (m : List (κ × List β)) {u k : κ} (v : List β)
    (h : u ≠ k) : lookupList (dictSet m k v) u = lookupList m u := by
  simp [lookupList, dictLookup_dictSet_ne m v h]

theorem lookupList_refsAppend_self [DecidableEq κ] (refs : List (κ × List α)) (k : κ) (v : α) :
    lookupList (refsAppend refs k v) k = lookupList refs k ++ [v] := by
  unfold refsAppend
  simp [lookupList_dictSet_self]

/-! ## Lemmas about the `load_json` merge -/

theorem mergeStep_of_mem [DecidableEq α] {mine : List α} {a : α} (h : a ∈ mine) :
    mergeStep mine a = mine := by
  simp [mergeStep, h]

theorem mergeStep_of_not_mem [DecidableEq α] {mine : List α} {a : α} (h : a ∉ mine) :
    mergeStep mine a = mine ++ [a] := by
  simp [mergeStep, h]

theorem mergeItems_cons [DecidableEq α] (mine : List α) (x : α) (xs : List α) :
    mergeItems mine (x :: xs) = mergeItems (mergeStep mine x) xs := rfl

theorem mem_mergeItems [DecidableEq α] (a : α) (mine items : List α) :
    a ∈ mergeItems mine items ↔ a ∈ mine ∨ a ∈ items := by
  induction items generalizing mine with
  | nil => simp [mergeItems]
  | cons x xs ih =>
    rw [mergeItems_cons]
    by_cases h : x ∈ mine
    · rw [mergeStep_of_mem h, ih]
      simp only [List.mem_cons]
      constructor
      · tauto
      · rintro (h1 | rfl | h1)
        · tauto
        · exact Or.inl h
        · tauto
    · rw [mergeStep_of_not_mem h, ih]
      simp only [List.mem_append, List.mem_cons, List.mem_singleton]
      tauto

theorem mergeItems_of_subset [DecidableEq α] {mine items : List α}
    (h : ∀ a ∈ items, a ∈ mine) : mergeItems mine items = mine := by
  induction items with
  | nil => rfl
  | cons x xs ih =>
    rw [mergeItems_cons, mergeStep_of_mem (h x (by simp))]
    exact ih (fun a ha => h a (by simp [ha]))

theorem mergeRefs_cons [DecidableEq κ] [DecidableEq α]
    (T : List (κ × List α)) (p : κ × List α) (src : List (κ × List α)) :
    mergeRefs T (p :: src) =
      mergeRefs (dictSet T p.1 (mergeItems (lookupList T p.1) p.2)) src := rfl

theorem mem_lookupList_mergeRefs [DecidableEq κ] [DecidableEq α]
    (T src : List (κ × List α)) (u : κ) (a : α) :
    a ∈ lookupList (mergeRefs T src) u ↔
      a ∈ lookupList T u ∨ ∃ p ∈ src, p.1 = u ∧ a ∈ p.2 := by
  induction src generalizing T with
  | nil => simp [mergeRefs]
  | cons q qs ih =>
    rw [mergeRefs_cons, ih]
    by_cases hu : q.1 = u
    · subst hu
      rw [lookupList_dictSet_self, mem_mergeItems]
      simp only [List.mem_cons]
      constructor
      · rintro ((h1 | h1) | ⟨p, hp, h2, h3⟩)
        · tauto
        · exact Or.inr ⟨q, Or.inl rfl, rfl, h1⟩
        · exact Or.inr ⟨p, Or.inr hp, h2, h3⟩
      · rintro (h1 | ⟨p, hp | hp, h2, h3⟩)
        · tauto
        · subst hp; tauto
        · exact Or.inr ⟨p, hp, h2, h3⟩
    · rw [lookupList_dictSet_ne _ _ (fun hh => hu hh.symm)]
      simp only [List.mem_cons]
      constructor
      · rintro (h1 | ⟨p, hp, h2, h3⟩)
        · tauto
        · exact Or.inr ⟨p, Or.inr hp, h2, h3⟩
      · rintro (h1 | ⟨p, hp | hp, h2, h3⟩)
        · tauto
        · subst hp; exact absurd h2 hu
        · exact Or.inr ⟨p, hp, h2, h3⟩

theorem mem_dictKeys_mergeRefs [DecidableEq κ] [DecidableEq α]
    (T src : List (κ × List α)) (u : κ) :
    u ∈ dictKeys (mergeRefs T src) ↔ u ∈ dictKeys T ∨ u ∈ dictKeys src := by
  induction src generalizing T with
  | nil => simp [mergeRefs, dictKeys]
  | cons q qs ih =>
    rw [mergeRefs_cons, ih, mem_dictKeys_dictSet]
    simp only [dictKeys, List.map_cons, List.mem_cons]
    tauto

theorem mergeRefs_eq_self [DecidableEq κ] [DecidableEq α]
    {T : List (κ × List α)} {src : List (κ × List α)}
    (hk : ∀ p ∈ src, p.1 ∈ dictKeys T)
    (ha : ∀ p ∈ src, ∀ a ∈ p.2, a ∈ lookupList T p.1) :
    mergeRefs T src = T := by
  induction src with
  | nil => rfl
  | cons q qs ih =>
    rw [mergeRefs_cons]
    obtain ⟨v, hv⟩ := dictLookup_isSome_of_mem (hk q (by simp))
    have hmerge : mergeItems (lookupList T q.1) q.2 = lookupList T q.1 :=
      mergeItems_of_subset (ha q (by simp))
    have hl : lookupList T q.1 = v := by simp [lookupList, hv]
    rw [hmerge, hl, dictSet_lookup_self hv]
    exact ih (fun p hp => hk p (by simp [hp])) (fun p hp => ha p (by simp [hp]))

theorem mergeRefs_idem [DecidableEq κ] [DecidableEq α]
    (T src : List (κ × List α)) :
    mergeRefs (mergeRefs T src) src = mergeRefs T src := by
  apply mergeRefs_eq_self
  · intro p hp
    rw [mem_dictKeys_mergeRefs]
    exact Or.inr (List.mem_map_of_mem Prod.fst hp)
  · intro p hp a hap
    rw [mem_lookupList_mergeRefs]
    exact Or.inr ⟨p, hp, rfl, hap⟩

/-! ## Lemmas about key-sorted serialization and reloading -/

theorem insKey_perm (p : String × β) (l : List (String × β)) :
    (insKey p l).Perm (p :: l) := by
  induction l with
  | nil => exact List.Perm.refl _
  | cons q qs ih =>
    unfold insKey
    by_cases h : p.1 ≤ q.1
    · simp only [if_pos h]
      exact List.Perm.refl _
    · simp only [if_neg h]
      exact (ih.cons q).trans (List.Perm.swap p q qs)

theorem sortKeys_perm (m : List (String × β)) : (sortKeys m).Perm m := by
  induction m with
  | nil => exact List.Perm.refl _
  | cons p ps ih =>
    exact (insKey_perm p (sortKeys ps)).trans (ih.cons p)

theorem dictLookup_eq_some_iff [DecidableEq κ] {m : List (κ × β)}
    (hnd : (dictKeys m).Nodup) (k : κ) (v : β) :
    dictLookup m k = some v ↔ (k, v) ∈ m := by
  induction m with
  | nil => simp [dictLookup]
  | cons p rest ih =>
    obtain ⟨k', v'⟩ := p
    have hnd' : k' ∉ dictKeys rest ∧ (dictKeys rest).Nodup := by
      simpa [dictKeys] using hnd
    by_cases hk : k' = k
    · subst hk
      have hlhs : dictLookup ((k', v') :: rest) k' = some v' := by simp [dictLookup]
      rw [hlhs, Option.some_inj, List.mem_cons]
      constructor
      · rintro rfl
        exact Or.inl rfl
      · rintro (h | h)
        · exact (Prod.ext_iff.mp h).2.symm
        · exact absurd (List.mem_map_of_mem Prod.fst h) hnd'.1
    · simp only [dictLookup, if_neg hk, List.mem_cons]
      rw [ih hnd'.2]
      constructor
      · exact Or.inr
      · rintro (h | h)
        · exact absurd (Prod.ext_iff.mp h).1 (fun hh => hk hh.symm)
        · exact h

theorem dictLookup_eq_none_iff [DecidableEq κ] (m : List (κ × β)) (k : κ) :
    dictLookup m k = none ↔ k ∉ dictKeys m := by
  induction m with
  | nil => simp [dictLookup, dictKeys]
  | cons p rest ih =>
    obtain ⟨k', v'⟩ := p
    by_cases hk : k' = k
    · subst hk
      simp [dictLookup, dictKeys]
    · simp only [dictLookup, if_neg hk, ih]
      constructor
      · intro h hmem
        rcases List.mem_cons.mp (show k ∈ k' :: dictKeys rest from hmem) with h1 | h1
        · exact hk h1.symm
        · exact h h1
      · intro h hmem
        exact h (List.mem_cons_of_mem _ hmem)

theorem dictLookup_sortKeys {m : List (String × β)}
    (hnd : (dictKeys m).Nodup) (k : String) :
    dictLookup (sortKeys m) k = dictLookup m k := by
  have hperm : (sortKeys m).Perm m := sortKeys_perm m
  have hkeys : (dictKeys (sortKeys m)).Perm (dictKeys m) := hperm.map Prod.fst
  have hnd' : (dictKeys (sortKeys m)).Nodup := hkeys.nodup_iff.mpr hnd
  cases h : dictLookup m k with
  | none =>
    rw [dictLookup_eq_none_iff] at h ⊢
    exact fun hm => h (hkeys.mem_iff.mp hm)
  | some v =>
    rw [dictLookup_eq_some_iff hnd] at h
    rw [dictLookup_eq_some_iff hnd']
    exact hperm.mem_iff.mpr h

theorem dictSet_append_of_not_mem [DecidableEq κ] {m : List (κ × β)} {k : κ}
    (h : k ∉ dictKeys m) (v : β) : dictSet m k v = m ++ [(k, v)] := by
  induction m with
  | nil => rfl
  | cons p rest ih =>
    obtain ⟨k', v'⟩ := p
    have hk : k' ≠ k := by
      intro hh
      exact h (hh ▸ List.mem_cons_self _ _)
    have hrest : k ∉ dictKeys rest := fun hh => h (List.mem_cons_of_mem _ hh)
    simp [dictSet, hk, ih hrest]

theorem mergeItems_append_of_nodup [DecidableEq α] {acc its : List α}
    (hnd : its.Nodup) (hdisj : ∀ a ∈ its, a ∉ acc) :
    mergeItems acc its = acc ++ its := by
  induction its generalizing acc with
  | nil => simp [mergeItems]
  | cons x xs ih =>
    rw [mergeItems_cons, mergeStep_of_not_mem (hdisj x (by simp))]
    have hnd' : xs.Nodup := (List.nodup_cons.mp hnd).2
    have hx : x ∉ xs := (List.nodup_cons.mp hnd).1
    rw [ih hnd' ?_]
    · simp
    · intro a ha
      simp only [List.mem_append, List.mem_singleton]
      rintro (h | rfl)
      · exact hdisj a (by simp [ha]) h
      · exact hx ha

theorem mergeRefs_append_of_disjoint [DecidableEq κ] [DecidableEq α]
    {T src : List (κ × List α)}
    (hnd : (dictKeys src).Nodup)
    (hdisj : ∀ k ∈ dictKeys src, k ∉ dictKeys T)
    (hlists : ∀ p ∈ src, p.2.Nodup) :
    mergeRefs T src = T ++ src := by
  induction src generalizing T with
  | nil => simp [mergeRefs]
  | cons q qs ih =>
    rw [mergeRefs_cons]
    have hq : q.1 ∉ dictKeys T := hdisj q.1 (List.mem_cons_self _ _)
    have hl : lookupList T q.1 = [] := by
      simp [lookupList, (dictLookup_eq_none_iff T q.1).mpr hq]
    have hmerge : mergeItems (lookupList T q.1) q.2 = q.2 := by
      rw [hl]
      simpa using @mergeItems_append_of_nodup _ _ [] q.2 (hlists q (by simp)) (by simp)
    rw [hmerge, dictSet_append_of_not_mem hq]
    have hndq : (dictKeys qs).Nodup ∧ q.1 ∉ dictKeys qs := by
      have := List.nodup_cons.mp (show (q.1 :: dictKeys qs).Nodup from hnd)
      exact ⟨this.2, this.1⟩
    rw [ih hndq.1 ?_ (fun p hp => hlists p (by simp [hp]))]
    · simp
    · intro k hk
      simp only [dictKeys, List.map_append, List.map_cons, List.map_nil, List.mem_append,
        List.mem_singleton]
      rintro (h | rfl)
      · exact hdisj k (List.mem_cons_of_mem _ hk) h
      · exact hndq.2 hk

/-! ## Lemmas about the by-file view and its stable sort -/

theorem mem_insLine {ρ : Type} (x a : OccNF ρ) (l : List (OccNF ρ)) :
    a ∈ insLine x l ↔ a = x ∨ a ∈ l := by
  induction l with
  | nil => simp [insLine]
  | cons y ys ih =>
    unfold insLine
    by_cases h : x.line ≤ y.line
    · simp only [if_pos h, List.mem_cons]
    · simp only [if_neg h, List.mem_cons, ih]
      tauto

theorem count_insLine {ρ : Type} [DecidableEq ρ] (x a : OccNF ρ) (l : List (OccNF ρ)) :
    (insLine x l).count a = (x :: l).count a := by
  induction l with
  | nil => rfl
  | cons y ys ih =>
    unfold insLine
    by_cases h : x.line ≤ y.line
    · simp only [if_pos h]
    · simp only [if_neg h]
      rw [List.count_cons, List.count_cons, ih, List.count_cons, List.count_cons]
      omega

theorem pairwise_insLine {ρ : Type} (x : OccNF ρ) {l : List (OccNF ρ)}
    (h : l.Pairwise (fun a b => a.line ≤ b.line)) :
    (insLine x l).Pairwise (fun a b => a.line ≤ b.line) := by
  induction l with
  | nil => simp [insLine]
  | cons y ys ih =>
    rw [List.pairwise_cons] at h
    unfold insLine
    by_cases hle : x.line ≤ y.line
    · rw [if_pos hle, List.pairwise_cons]
      refine ⟨?_, List.pairwise_cons.mpr h⟩
      intro a ha
      rcases List.mem_cons.mp ha with rfl | ha
      · exact hle
      · exact le_trans hle (h.1 a ha)
    · rw [if_neg hle, List.pairwise_cons]
      refine ⟨?_, ih h.2⟩
      intro a ha
      rcases (mem_insLine x a ys).mp ha with rfl | ha
      · exact le_of_not_le hle
      · exact h.1 a ha

theorem filter_insLine_pos {ρ : Type} {x : OccNF ρ} {lv : Nat} (hx : x.line = lv)
    (l : List (OccNF ρ)) :
    (insLine x l).filter (fun e => e.line == lv) = x :: l.filter (fun e => e.line == lv) := by
  induction l with
  | nil => simp [insLine, List.filter, hx]
  | cons y ys ih =>
    unfold insLine
    by_cases h : x.line ≤ y.line
    · simp only [if_pos h]
      rw [List.filter_cons, if_pos (by simp [hx])]
    · simp only [if_neg h]
      have hy : ¬ (y.line == lv) = true := by
        simp only [beq_iff_eq]
        omega
      rw [List.filter_cons, if_neg hy, ih, List.filter_cons, if_neg hy]

theorem filter_insLine_neg {ρ : Type} {x : OccNF ρ} {lv : Nat} (hx : x.line ≠ lv)
    (l : List (OccNF ρ)) :
    (insLine x l).filter (fun e => e.line == lv) = l.filter (fun e => e.line == lv) := by
  induction l with
  | nil => simp [insLine, List.filter_cons, beq_iff_eq, hx]
  | cons y ys ih =>
    unfold insLine
    by_cases h : x.line ≤ y.line
    · rw [if_pos h, List.filter_cons, if_neg (by simp [beq_iff_eq, hx])]
    · rw [if_neg h, List.filter_cons, List.filter_cons, ih]

theorem filter_sortByLine {ρ : Type} (l : List (OccNF ρ)) (lv : Nat) :
    (sortByLine l).filter (fun e => e.line == lv) = l.filter (fun e => e.line == lv) := by
  induction l with
  | nil => rfl
  | cons x xs ih =>
    show (insLine x (sortByLine xs)).filter _ = _
    by_cases hx : x.line = lv
    · rw [filter_insLine_pos hx, ih, List.filter_cons, if_pos (by simp [hx])]
    · rw [filter_insLine_neg hx, ih, List.filter_cons, if_neg (by simp [hx])]

theorem count_sortByLine {ρ : Type} [DecidableEq ρ] (l : List (OccNF ρ)) (a : OccNF ρ) :
    (sortByLine l).count a = l.count a := by
  induction l with
  | nil => rfl
  | cons x xs ih =>
    show (insLine x (sortByLine xs)).count a = _
    rw [count_insLine, List.count_cons, ih, List.count_cons]

theorem pairwise_sortByLine {ρ : Type} (l : List (OccNF ρ)) :
    (sortByLine l).Pairwise (fun a b => a.line ≤ b.line) := by
  induction l with
  | nil => exact List.Pairwise.nil
  | cons x xs ih => exact pairwise_insLine x ih

theorem lookupList_foldl_byFileStep {ρ : Type} (locs : List (Occ ρ))
    (out : List (String × List (OccNF ρ))) (f : String) :
    lookupList (locs.foldl byFileStep out) f
      = lookupList out f ++ (locs.filter (fun o => o.file == f)).map dropFile := by
  induction locs generalizing out with
  | nil => simp
  | cons loc ls ih =>
    rw [List.foldl_cons, ih]
    by_cases h : loc.file = f
    · subst h
      rw [List.filter_cons, if_pos (by simp)]
      show lookupList (refsAppend out loc.file (dropFile loc)) loc.file ++ _ = _
      rw [lookupList_refsAppend_self]
      simp
    · rw [List.filter_cons, if_neg (by simp [h])]
      show lookupList (dictSet out loc.file _) f ++ _ = _
      rw [lookupList_dictSet_ne _ _ (fun hh => h hh.symm)]

theorem lookupList_byFileRaw_aux {κ ρ : Type} (refs : List (κ × List (Occ ρ)))
    (out : List (String × List (OccNF ρ))) (f : String) :
    lookupList (refs.foldl (fun o p => p.2.foldl byFileStep o) out) f
      = lookupList out f
        ++ (((refs.flatMap Prod.snd).filter (fun o => o.file == f)).map dropFile) := by
  induction refs generalizing out with
  | nil => simp
  | cons p ps ih =>
    rw [List.foldl_cons, ih, lookupList_foldl_byFileStep]
    simp [List.flatMap_cons, List.filter_append, List.append_assoc]

theorem lookupList_byFileRaw {κ ρ : Type} (refs : List (κ × List (Occ ρ))) (f : String) :
    lookupList (byFileRaw refs) f
      = ((refs.flatMap Prod.snd).filter (fun o => o.file == f)).map dropFile := by
  have := lookupList_byFileRaw_aux refs [] f
  simpa [lookupList, dictLookup] using this

theorem dictLookup_map_values {κ β : Type} [DecidableEq κ]
    (m : List (κ × β)) (g : β → β) (k : κ) :
    dictLookup (m.map (fun p => (p.1, g p.2))) k = (dictLookup m k).map g := by
  induction m with
  | nil => rfl
  | cons p rest ih =>
    by_cases h : p.1 = k
    · simp [dictLookup, h]
    · simp [dictLookup, h, ih]

theorem lookupList_byFile {κ ρ : Type} (refs : List (κ × List (Occ ρ))) (f : String) :
    lookupList (byFile refs) f = sortByLine (lookupList (byFileRaw refs) f) := by
  unfold byFile lookupList
  rw [dictLookup_map_values]
  cases dictLookup (byFileRaw refs) f with
  | none => rfl
  | some l => rfl

/-! ## Claim theorems -/

/-- C2: merging the same serialized snapshot into a store a second time
is a no-op — for every store `S` and snapshot source `A`,
`load_json`-merging `A` into `merge(S, A)` yields `merge(S, A)`
unchanged (the content-equality dedup skips every occurrence, and the
only touched key, `refs`, gains nothing). -/
theorem loadJson_merge_idempotent [DecidableEq κ] [DecidableEq α]
    (S A : Store κ α β γ) :
    loadJson (loadJson S A) A = loadJson S A := by
  simp [loadJson, mergeRefs_idem]

/-- C10: `Xrelfo.load_json` modifies only the `refs` mapping — the
store's `cli` key and all other top-level keys are unchanged, `refs`
becomes exactly the dedup merge, and the snapshot's own `cli` and other
top-level content are never read (the result is invariant under
changing them). -/
theorem loadJson_frame_refs_only [DecidableEq κ] [DecidableEq α]
    (S D : Store κ α β γ) :
    (loadJson S D).cli = S.cli ∧
    (loadJson S D).extra = S.extra ∧
    (loadJson S D).refs = mergeRefs S.refs D.refs ∧
    ∀ (c' : Option β) (e' : List (String × γ)),
      loadJson S { D with cli := c', extra := e' } = loadJson S D :=
  ⟨rfl, rfl, rfl, fun _ _ => rfl⟩

/-- C3 counterexample: merging `{u: [x]}` then `{u: [y]}` into an empty
store yields the occurrence list `[x, y]`, while the opposite order
yields `[y, x]` — the per-identity occurrence lists differ, so the two
merge orders do not produce the same `refs` mapping. -/
theorem merge_order_refs_lists_differ_cex :
    dictLookup (loadJson
        (loadJson (emptyStore : Store String String Nat Nat)
          { refs := [("u", ["x"])], cli := none, extra := [] })
        { refs := [("u", ["y"])], cli := none, extra := [] }).refs "u"
      = some ["x", "y"] ∧
    dictLookup (loadJson
        (loadJson (emptyStore : Store String String Nat Nat)
          { refs := [("u", ["y"])], cli := none, extra := [] })
        { refs := [("u", ["x"])], cli := none, extra := [] }).refs "u"
      = some ["y", "x"] ∧
    (["x", "y"] : List String) ≠ ["y", "x"] :=
  ⟨rfl, rfl, by decide⟩

/-- C3 (amended): merging two sources in either order produces `refs`
mappings with the same identities and, per identity, the same set of
occurrences; only the order of occurrences inside a per-identity list
can differ between `merge(merge(S, A), B)` and `merge(merge(S, B), A)`. -/
theorem merge_order_same_identities_and_occurrence_sets
    [DecidableEq κ] [DecidableEq α] (S A B : Store κ α β γ) :
    (∀ u, u ∈ dictKeys (loadJson (loadJson S A) B).refs ↔
          u ∈ dictKeys (loadJson (loadJson S B) A).refs) ∧
    (∀ u a, a ∈ lookupList (loadJson (loadJson S A) B).refs u ↔
            a ∈ lookupList (loadJson (loadJson S B) A).refs u) := by
  have hswap : ∀ p q r : Prop, ((p ∨ q) ∨ r) ↔ ((p ∨ r) ∨ q) := by tauto
  constructor
  · intro u
    simp only [loadJson]
    rw [mem_dictKeys_mergeRefs, mem_dictKeys_mergeRefs,
        mem_dictKeys_mergeRefs, mem_dictKeys_mergeRefs]
    exact hswap _ _ _
  · intro u a
    simp only [loadJson]
    rw [mem_lookupList_mergeRefs, mem_lookupList_mergeRefs,
        mem_lookupList_mergeRefs, mem_lookupList_mergeRefs]
    exact hswap _ _ _

/-- C1 counterexample: contributing the same log-message record twice
during ELF extraction (`XrefLogmsg.to_dict`) appends a second
identical-content occurrence under its identity instead of suppressing
it — the store ends with `[d, d]`, not `[d]`. -/
theorem elf_logmsg_duplicate_not_suppressed_cex :
    dictLookup (logmsgToDict (fun _ _ _ _ => "UID")
        { xref := { file := "lib/foo.c", line := 42, func := "fn", addr := 4096 },
          xrefdata := { hashstr := some "h", hashu32_0 := 1, hashu32_1 := 2 },
          ec := 0, fmtstring := "msg", priority := 6 }
        (logmsgToDict (fun _ _ _ _ => "UID")
          { xref := { file := "lib/foo.c", line := 42, func := "fn", addr := 4096 },
            xrefdata := { hashstr := some "h", hashu32_0 := 1, hashu32_1 := 2 },
            ec := 0, fmtstring := "msg", priority := 6 }
          (emptyStore : Store (Option String) LogmsgDict Unit Unit))).refs
      (some "UID")
    = some
        [{ file := "lib/foo.c", line := 42, func := "fn", ec := none,
           fmtstring := "msg", priority := 6, type := "logmsg", flags := none },
         { file := "lib/foo.c", line := 42, func := "fn", ec := none,
           fmtstring := "msg", priority := 6, type := "logmsg", flags := none }] ∧
    ([{ file := "lib/foo.c", line := 42, func := "fn", ec := none,
        fmtstring := "msg", priority := 6, type := "logmsg", flags := none },
      { file := "lib/foo.c", line := 42, func := "fn", ec := none,
        fmtstring := "msg", priority := 6, type := "logmsg", flags := none }] :
      List LogmsgDict) ≠
    [{ file := "lib/foo.c", line := 42, func := "fn", ec := none,
       fmtstring := "msg", priority := 6, type := "logmsg", flags := none }] :=
  ⟨by decide, by decide⟩

/-- C1 (amended): content-equality deduplication of occurrences happens
only on the snapshot-merge path (`load_json`): there, a source
occurrence is skipped when an identical-content occurrence is already
in the target list and appended otherwise; log-message occurrences
contributed during ELF extraction (`XrefLogmsg.to_dict`) are appended
unconditionally, even when an identical-content occurrence is already
present under their identity. -/
theorem refs_dedup_only_snapshot_merge (β γ : Type) :
    (∀ (mine rest : List LogmsgDict) (item : LogmsgDict),
      (item ∈ mine → mergeItems mine (item :: rest) = mergeItems mine rest) ∧
      (item ∉ mine → mergeItems mine (item :: rest) = mergeItems (mine ++ [item]) rest)) ∧
    (∀ (uidh : String → String → Nat → Nat → String) (m : XrefLogmsg)
        (s : Store (Option String) LogmsgDict β γ),
      lookupList (logmsgToDict uidh m s).refs (xrefdataUid uidh m.xref m.xrefdata)
        = lookupList s.refs (xrefdataUid uidh m.xref m.xrefdata) ++ [logmsgJsobj m]) := by
  constructor
  · intro mine rest item
    constructor
    · intro h
      rw [mergeItems_cons, mergeStep_of_mem h]
    · intro h
      rw [mergeItems_cons, mergeStep_of_not_mem h]
  · intro uidh m s
    exact lookupList_refsAppend_self s.refs _ _

/-- Witness for the amended C1: a duplicate-content snapshot occurrence
is skipped, a fresh one is appended, at concrete descriptor values. -/
theorem refs_dedup_only_snapshot_merge_witness :
    ((⟨"a", 1, "f", none, "x", 6, "logmsg", none⟩ : LogmsgDict) ∈
        [(⟨"a", 1, "f", none, "x", 6, "logmsg", none⟩ : LogmsgDict)] ∧
      mergeItems [(⟨"a", 1, "f", none, "x", 6, "logmsg", none⟩ : LogmsgDict)]
          [⟨"a", 1, "f", none, "x", 6, "logmsg", none⟩]
        = mergeItems [(⟨"a", 1, "f", none, "x", 6, "logmsg", none⟩ : LogmsgDict)] []) ∧
    ((⟨"b", 2, "g", none, "y", 5, "logmsg", none⟩ : LogmsgDict) ∉
        [(⟨"a", 1, "f", none, "x", 6, "logmsg", none⟩ : LogmsgDict)] ∧
      mergeItems [(⟨"a", 1, "f", none, "x", 6, "logmsg", none⟩ : LogmsgDict)]
          [⟨"b", 2, "g", none, "y", 5, "logmsg", none⟩]
        = mergeItems ([(⟨"a", 1, "f", none, "x", 6, "logmsg", none⟩ : LogmsgDict)] ++
            [⟨"b", 2, "g", none, "y", 5, "logmsg", none⟩]) []) :=
  ⟨⟨by decide,
    ((refs_dedup_only_snapshot_merge Unit Unit).1
      [⟨"a", 1, "f", none, "x", 6, "logmsg", none⟩] []
      ⟨"a", 1, "f", none, "x", 6, "logmsg", none⟩).1 (by decide)⟩,
   ⟨by decide,
    ((refs_dedup_only_snapshot_merge Unit Unit).1
      [⟨"a", 1, "f", none, "x", 6, "logmsg", none⟩] []
      ⟨"b", 2, "g", none, "y", 5, "logmsg", none⟩).2 (by decide)⟩⟩

/-- C4 counterexample: a store whose `cli` key is populated does not
survive the serialize/reload round trip — `load_json` never reads the
snapshot's `cli`, so the reloaded fresh store has no `cli` key and is
not equal to the original. -/
theorem roundtrip_drops_cli_cex :
    (roundTrip ({ refs := [("u", ["x"])], cli := some 7, extra := [] } :
        Store String String Nat Nat)).cli = none ∧
    roundTrip ({ refs := [("u", ["x"])], cli := some 7, extra := [] } :
        Store String String Nat Nat)
      ≠ { refs := [("u", ["x"])], cli := some 7, extra := [] } :=
  ⟨rfl, by decide⟩

/-- C4 (amended): for a store whose `refs` mapping has distinct
identities and duplicate-free per-identity occurrence lists (as any
Python dict produced by the dedup merge has), serializing to the
primary JSON output and reloading through `load_json` into a fresh
store reproduces the `refs` mapping exactly (as a dict: same keys,
same per-identity lists); the `cli` mapping and all other top-level
keys are dropped — the reloaded store has no `cli` key. -/
theorem roundtrip_refs_preserved_cli_dropped [DecidableEq α]
    (S : Store String α β γ)
    (hkeys : (dictKeys S.refs).Nodup)
    (hlists : ∀ p ∈ S.refs, p.2.Nodup) :
    (∀ k, dictLookup (roundTrip S).refs k = dictLookup S.refs k) ∧
    (roundTrip S).cli = none ∧ (roundTrip S).extra = [] := by
  have hperm : (sortKeys S.refs).Perm S.refs := sortKeys_perm S.refs
  have hkperm : (dictKeys (sortKeys S.refs)).Perm (dictKeys S.refs) := hperm.map Prod.fst
  have hnd' : (dictKeys (sortKeys S.refs)).Nodup := hkperm.nodup_iff.mpr hkeys
  have hrefs : (roundTrip S).refs = sortKeys S.refs := by
    show mergeRefs [] (sortKeys S.refs) = sortKeys S.refs
    rw [mergeRefs_append_of_disjoint hnd' (by simp [dictKeys])
      (fun p hp => hlists p (hperm.mem_iff.mp hp))]
    simp
  refine ⟨fun k => ?_, rfl, rfl⟩
  rw [hrefs, dictLookup_sortKeys hkeys]

/-- Witness for the amended C4 at a concrete two-identity store. -/
theorem roundtrip_refs_preserved_cli_dropped_witness :
    ((dictKeys (⟨[("u", ["x"]), ("t", ["y", "z"])], some 7, []⟩ :
        Store String String Nat Nat).refs).Nodup ∧
      (∀ p ∈ (⟨[("u", ["x"]), ("t", ["y", "z"])], some 7, []⟩ :
        Store String String Nat Nat).refs, p.2.Nodup)) ∧
    ((∀ k, dictLookup (roundTrip (⟨[("u", ["x"]), ("t", ["y", "z"])], some 7, []⟩ :
          Store String String Nat Nat)).refs k
        = dictLookup (⟨[("u", ["x"]), ("t", ["y", "z"])], some 7, []⟩ :
          Store String String Nat Nat).refs k) ∧
      (roundTrip (⟨[("u", ["x"]), ("t", ["y", "z"])], some 7, []⟩ :
        Store String String Nat Nat)).cli = none ∧
      (roundTrip (⟨[("u", ["x"]), ("t", ["y", "z"])], some 7, []⟩ :
        Store String String Nat Nat)).extra = []) :=
  ⟨⟨by decide, by decide⟩,
   roundtrip_refs_preserved_cli_dropped _ (by decide) (by decide)⟩

/-- C5 counterexample: an installation occurrence for `"show version"`
followed by a definition occurrence for the same name yields a single
descriptor whose `nodes` list is empty, not one-element — the
definition's `update` overwrites `nodes` with its own fresh empty list,
discarding the earlier installation entry. -/
theorem install_before_defun_loses_node_cex :
    dictLookup ((cmdElementToDict
        { name := "show version", string := "show version", doc := "d", attr := 0,
          xref := { file := "vty.c", line := 10, func := "f", addr := 0 } }
        (installElementToDict
          { cmdName := "show version", node_type := 3,
            xref := { file := "cmd.c", line := 20, func := "g", addr := 0 } }
          (emptyStore : Store String String CliMap Unit))).cli.getD []) "show version"
      = some { string := some "show version", doc := some "d", attr := none,
               nodes := some [], defun := some { file := "vty.c", line := 10, func := "f" } } ∧
    ([] : List NodeEntry).length ≠ 1 :=
  ⟨by decide, by decide⟩

/-- C5 (amended): a definition and an installation occurrence for the
same command name always merge into a single `cli[name]` descriptor
carrying the `defun` location; only the definition-then-installation
order yields the one-element `nodes` list — in the
installation-then-definition order the definition overwrites `nodes`
with its own empty list and the installation entry is lost. -/
theorem cli_contribution_order_dependent_nodes [DecidableEq κ]
    (c : CmdElement) (i : XrefInstallElement) (h : c.name = i.cmdName) :
    (installElementToDict i (cmdElementToDict c (emptyStore : Store κ α CliMap γ))).cli
      = some [(c.name,
          { string := some c.string, doc := some c.doc, attr := cmdAttrs c.attr,
            nodes := some [{ node := i.node_type, install := xrefLoc i.xref }],
            defun := some (xrefLoc c.xref) })] ∧
    (cmdElementToDict c (installElementToDict i (emptyStore : Store κ α CliMap γ))).cli
      = some [(c.name,
          { string := some c.string, doc := some c.doc, attr := cmdAttrs c.attr,
            nodes := some [], defun := some (xrefLoc c.xref) })] := by
  obtain ⟨iname, inode, ixref⟩ := i
  have h' : c.name = iname := h
  subst h'
  constructor
  · simp [cmdElementToDict, installElementToDict, emptyStore, dictLookup, dictSet,
      emptyCmdDesc]
  · simp [cmdElementToDict, installElementToDict, emptyStore, dictLookup, dictSet,
      emptyCmdDesc]

/-- Witness for the amended C5 at concrete records named
`"show version"`. -/
theorem cli_contribution_order_dependent_nodes_witness :
    ((⟨"show version", "show version [json]", "d", 0, ⟨"vty.c", 10, "f", 0⟩⟩ :
       CmdElement).name
      = ((⟨"show version", 3, ⟨"cmd.c", 20, "g", 0⟩⟩ : XrefInstallElement)).cmdName) ∧
    ((installElementToDict (⟨"show version", 3, ⟨"cmd.c", 20, "g", 0⟩⟩ : XrefInstallElement)
        (cmdElementToDict
          (⟨"show version", "show version [json]", "d", 0, ⟨"vty.c", 10, "f", 0⟩⟩ : CmdElement)
          (emptyStore : Store String String CliMap Unit))).cli
      = some [("show version",
          ⟨some "show version [json]", some "d", cmdAttrs 0,
            some [⟨3, xrefLoc ⟨"cmd.c", 20, "g", 0⟩⟩],
            some (xrefLoc ⟨"vty.c", 10, "f", 0⟩)⟩)] ∧
    (cmdElementToDict
          (⟨"show version", "show version [json]", "d", 0, ⟨"vty.c", 10, "f", 0⟩⟩ : CmdElement)
        (installElementToDict (⟨"show version", 3, ⟨"cmd.c", 20, "g", 0⟩⟩ : XrefInstallElement)
          (emptyStore : Store String String CliMap Unit))).cli
      = some [("show version",
          ⟨some "show version [json]", some "d", cmdAttrs 0, some [],
            some (xrefLoc ⟨"vty.c", 10, "f", 0⟩)⟩)]) :=
  ⟨rfl, cli_contribution_order_dependent_nodes _ _ rfl⟩

/-- C6: the by-file view contains every occurrence of `refs` exactly
once (same multiplicity for every entry), placed under the occurrence's
original file key with the `file` field removed; each per-file list is
sorted ascending by line, and equal-line entries keep their relative
insertion order (the per-line sub-sequences agree with the unsorted
insertion-order projection). -/
theorem byFile_view_complete_sorted_stable {κ ρ : Type} [DecidableEq ρ]
    (refs : List (κ × List (Occ ρ))) (f : String) :
    (∀ e : OccNF ρ,
      (lookupList (byFile refs) f).count e
        = (((refs.flatMap Prod.snd).filter (fun o => o.file == f)).map dropFile).count e) ∧
    (lookupList (byFile refs) f).Pairwise (fun a b => a.line ≤ b.line) ∧
    (∀ lv : Nat,
      (lookupList (byFile refs) f).filter (fun e => e.line == lv)
        = (((refs.flatMap Prod.snd).filter (fun o => o.file == f)).map dropFile).filter
            (fun e => e.line == lv)) := by
  rw [lookupList_byFile, lookupList_byFileRaw]
  exact ⟨fun e => count_sortByLine _ e,
    pairwise_sortByLine _,
    fun lv => filter_sortByLine _ lv⟩

/-- C7: the record pointer table is located by probing for the
`("FRRouting", "XREF")` note first — its payload being two
pointer-sized integers decoded in the file's endianness and word width,
both relative to the note's start, with `end` additionally offset by
one word width (8 bytes for 64-bit files, 4 for 32-bit) — falling back
to reading the `xref_array` section directly, and failing when neither
exists. -/
theorem elf_ptr_table_discovery (edf : ELFFile) (note : NoteData) :
    (edf.note = some note → edf.elfclass = 64 → note.mem.length = 16 →
      loadElfPtrs edf = .ok (.range
        (decodeWord edf.bigendian (note.mem.take 8) + note.start)
        (decodeWord edf.bigendian ((note.mem.drop 8).take 8) + note.start + 8))) ∧
    (edf.note = some note → edf.elfclass = 32 → note.mem.length = 8 →
      loadElfPtrs edf = .ok (.range
        (decodeWord edf.bigendian (note.mem.take 4) + note.start)
        (decodeWord edf.bigendian ((note.mem.drop 4).take 4) + note.start + 4))) ∧
    (edf.note = none → ∀ sec, edf.xref_array = some sec →
      loadElfPtrs edf = .ok (.fromSection sec)) ∧
    (edf.note = none → edf.xref_array = none →
      loadElfPtrs edf = .error "file has neither xref note nor xref_array section") := by
  refine ⟨?_, ?_, ?_, ?_⟩
  · intro h1 h2 h3
    unfold loadElfPtrs
    rw [h1]
    simp [h2, h3]
  · intro h1 h2 h3
    unfold loadElfPtrs
    rw [h1]
    simp [h2, h3]
  · intro h1 sec h2
    unfold loadElfPtrs
    rw [h1, h2]
  · intro h1 h2
    unfold loadElfPtrs
    rw [h1, h2]

/-- Witness for C7: the three discovery outcomes at concrete files
(64-bit little-endian note, 32-bit big-endian note, section-only,
neither). -/
theorem elf_ptr_table_discovery_witness :
    loadElfPtrs ⟨false, 64, some ⟨256, [1, 0, 0, 0, 0, 0, 0, 0, 2, 0, 0, 0, 0, 0, 0, 0]⟩, none⟩
      = .ok (.range 257 266) ∧
    loadElfPtrs ⟨true, 32, some ⟨100, [0, 0, 0, 4, 0, 0, 0, 8]⟩, none⟩
      = .ok (.range 104 112) ∧
    loadElfPtrs ⟨false, 64, none, some ⟨[9, 9]⟩⟩ = .ok (.fromSection ⟨[9, 9]⟩) ∧
    loadElfPtrs ⟨false, 64, none, none⟩
      = .error "file has neither xref note nor xref_array section" :=
  ⟨(elf_ptr_table_discovery _ ⟨256, [1, 0, 0, 0, 0, 0, 0, 0, 2, 0, 0, 0, 0, 0, 0, 0]⟩).1
      rfl rfl rfl,
   (elf_ptr_table_discovery _ ⟨100, [0, 0, 0, 4, 0, 0, 0, 8]⟩).2.1 rfl rfl rfl,
   (elf_ptr_table_discovery ⟨false, 64, none, some ⟨[9, 9]⟩⟩ ⟨0, []⟩).2.2.1 rfl ⟨[9, 9]⟩ rfl,
   (elf_ptr_table_discovery ⟨false, 64, none, none⟩ ⟨0, []⟩).2.2.2 rfl rfl⟩

/-- C8: a Detail record's identity is `None` exactly when it has no
hash-input text; otherwise it is the supplied hash of only the owning
record's origin file, the hash-input text and the two auxiliary 32-bit
integers — so two records identical in those values get the same
identifier regardless of origin line, function, or in-binary address. -/
theorem xrefdata_uid_content_addressing
    (uidh : String → String → Nat → Nat → String) (x1 x2 : Xref) (d1 d2 : Xrefdata)
    (hfile : x1.file = x2.file) (hstr : d1.hashstr = d2.hashstr)
    (h0 : d1.hashu32_0 = d2.hashu32_0) (h1 : d1.hashu32_1 = d2.hashu32_1) :
    (xrefdataUid uidh x1 d1 = none ↔ d1.hashstr = none) ∧
    xrefdataUid uidh x1 d1 = xrefdataUid uidh x2 d2 := by
  constructor
  · unfold xrefdataUid
    cases d1.hashstr <;> simp
  · unfold xrefdataUid
    rw [hstr, hfile, h0, h1]

/-- Witness for C8: records differing only in line, function and
in-binary address obtain equal identifiers. -/
theorem xrefdata_uid_content_addressing_witness :
    ((⟨"file.c", 10, "f", 100⟩ : Xref).file = (⟨"file.c", 99, "g", 200⟩ : Xref).file) ∧
    ((xrefdataUid (fun f s _ _ => f ++ s) ⟨"file.c", 10, "f", 100⟩ ⟨some "h", 5, 6⟩ = none ↔
        (⟨some "h", 5, 6⟩ : Xrefdata).hashstr = none) ∧
      xrefdataUid (fun f s _ _ => f ++ s) ⟨"file.c", 10, "f", 100⟩ ⟨some "h", 5, 6⟩
        = xrefdataUid (fun f s _ _ => f ++ s) ⟨"file.c", 99, "g", 200⟩ ⟨some "h", 5, 6⟩) :=
  ⟨rfl, xrefdata_uid_content_addressing _ _ _ _ _ rfl rfl rfl rfl⟩

/-- C9: a log-message descriptor's `priority` is the low 3 bits of the
packed priority field; the `"errno"` flag is present exactly when bit
`0x10` is set and `"getaddrinfo"` exactly when bit `0x20` is set; the
`ec` field is present exactly when the error code is nonzero; and a
packed priority byte of `0x16` yields priority `6` with flags
`["errno"]`. -/
theorem logmsg_descriptor_priority_flags (m : XrefLogmsg) :
    (logmsgJsobj m).priority = m.priority % 8 ∧
    ("errno" ∈ (logmsgJsobj m).flags.getD [] ↔ m.priority &&& 0x10 ≠ 0) ∧
    ("getaddrinfo" ∈ (logmsgJsobj m).flags.getD [] ↔ m.priority &&& 0x20 ≠ 0) ∧
    ((logmsgJsobj m).ec = none ↔ m.ec = 0) ∧
    (m.priority = 0x16 →
      (logmsgJsobj m).priority = 6 ∧ (logmsgJsobj m).flags = some ["errno"]) := by
  refine ⟨?_, ?_, ?_, ?_, ?_⟩
  · show m.priority &&& 7 = m.priority % 8
    have h := Nat.and_pow_two_sub_one_eq_mod m.priority 3
    norm_num at h
    exact h
  · unfold logmsgJsobj
    by_cases h1 : m.priority &&& 0x10 ≠ 0 <;> by_cases h2 : m.priority &&& 0x20 ≠ 0 <;>
      simp [h1, h2]
  · unfold logmsgJsobj
    by_cases h1 : m.priority &&& 0x10 ≠ 0 <;> by_cases h2 : m.priority &&& 0x20 ≠ 0 <;>
      simp [h1, h2]
  · unfold logmsgJsobj
    by_cases h : m.ec ≠ 0 <;> simp [h] <;> omega
  · intro h
    unfold logmsgJsobj
    rw [h]
    exact ⟨by simp <;> decide, by simp <;> decide⟩

/-- Witness for C9: a concrete occurrence with packed priority `0x16`
decodes to priority `6` and flags `["errno"]`. -/
theorem logmsg_descriptor_priority_flags_witness :
    ((⟨⟨"log.c", 7, "fn", 0⟩, ⟨some "h", 0, 0⟩, 11, "oops", 0x16⟩ : XrefLogmsg).priority
      = 0x16) ∧
    ((logmsgJsobj (⟨⟨"log.c", 7, "fn", 0⟩, ⟨some "h", 0, 0⟩, 11, "oops", 0x16⟩ :
        XrefLogmsg)).priority = 6 ∧
      (logmsgJsobj (⟨⟨"log.c", 7, "fn", 0⟩, ⟨some "h", 0, 0⟩, 11, "oops", 0x16⟩ :
        XrefLogmsg)).flags = some ["errno"]) :=
  ⟨rfl,
    (logmsg_descriptor_priority_flags
      (⟨⟨"log.c", 7, "fn", 0⟩, ⟨some "h", 0, 0⟩, 11, "oops", 0x16⟩ : XrefLogmsg)).2.2.2.2
      rfl⟩

end Frr
